import Mathlib

/-!
Verification development for the measurement-scheduling and result-aggregation
core of a bandwidth-probing service (the torflow slice selection engine in
`torflow-slice.c` and the bandwidth aggregator in `torflow-aggregator.c`).

The C code is shallowly embedded as follows.

* A glib `GHashTable*` keyed by relay-identity strings and holding `guint`
  probe counts packed into pointers (`GUINT_TO_POINTER`) is modelled as an
  association list `List (String × Nat)` with unique keys.  Crucially,
  `GUINT_TO_POINTER 0` is the NULL pointer, so `g_hash_table_lookup` returns
  NULL both for an absent key and for a stored count of zero; the model's
  `gLookup` reproduces this by mapping both cases to `0`.
* `guint` values are modelled as `Nat`; the only place where the 32-bit
  range matters is the `G_MAXUINT` initial accumulator of the minimum-probe
  scan, which is kept as the literal `UINT_MAX`.
* `rand()`-driven index selection is modelled by passing the drawn index in
  as an oracle argument; the C computation clamps the drawn index into
  `[0, numElements)` exactly as `_torflowslice_randomIndex` does here.
* `g_ascii_strcasecmp` equality is modelled by comparing strings mapped
  through ASCII `tolower`.
-/

/-- Association-list model of a glib string-keyed `GHashTable` holding
`guint` probe counts. -/
abbrev Table := List (String × Nat)

/-- First-match lookup, as `g_hash_table_lookup` (keys are unique in a real
hash table; theorems carry the no-duplicate hypothesis where it matters). -/
def tableLookup : Table → String → Option Nat
  | [], _ => none
  | p :: rest, k => if p.1 = k then some p.2 else tableLookup rest k

/-- Lookup as the C code observes it: `g_hash_table_lookup` returns a
`gpointer` that is NULL both for a missing key and for a stored count of 0,
and `GPOINTER_TO_UINT NULL = 0`.  So the observable value is the count with
absent collapsed to 0. -/
def gLookup (t : Table) (k : String) : Nat := (tableLookup t k).getD 0

/-- Removal of the (first) binding of a key, as `g_hash_table_steal` /
`g_hash_table_remove` act on the unique binding. -/
def tableRemove : Table → String → Table
  | [], _ => []
  | p :: rest, k => if p.1 = k then rest else p :: tableRemove rest k

/-- Insert-or-update, as `g_hash_table_replace`. -/
def tableReplace : Table → String → Nat → Table
  | [], k, v => [(k, v)]
  | p :: rest, k, v => if p.1 = k then (k, v) :: rest else p :: tableReplace rest k v

/-- The key list of a table. -/
def tableKeys (t : Table) : List String := t.map Prod.fst

/-- Relay record as consumed by this core (fields of `TorFlowRelay` that the
slice and aggregator read). -/
structure TorFlowRelay where
  identity : String
  nickname : String
  isAuth : Bool
  isExit : Bool
  descriptorBandwidth : Int
  advertisedBandwidth : Int
  deriving DecidableEq

/-- State of `struct _TorFlowSlice`: id, percentile, per-relay probe target,
the one-slot membership cache (`relayIDSearch`/`relayIDFound`) and the three
role partitions. -/
structure TorFlowSlice where
  sliceID : Nat
  percentile : ℚ
  numProbesPerRelay : Nat
  relayIDSearch : Option String
  relayIDFound : Bool
  entries : Table
  exits : Table
  auths : Table
  deriving DecidableEq

/-- G_MAXUINT, the initial accumulator of `_torflowslice_computeMinProbes`. -/
def UINT_MAX : Nat := 4294967295

/-- The `g_hash_table_foreach` pass of `_torflowslice_computeMinProbes`:
fold `MIN` over the stored probe counts starting from `G_MAXUINT`. -/
def _torflowslice_computeMinProbes (t : Table) : Nat :=
  t.foldl (fun m p => min m p.2) UINT_MAX

/-- `_torflowslice_getCandidates`: all keys whose probe count equals the
minimum count found in the table, in table order. -/
def _torflowslice_getCandidates (t : Table) : List String :=
  (t.filter (fun p => p.2 == _torflowslice_computeMinProbes t)).map Prod.fst

/-- `_torflowslice_randomIndex`: the C code draws `rand()`, scales it to
`[0, numElements]` and clamps the outlier `numElements` down to
`numElements - 1`, returning 0 for an empty range.  The drawn (already
scaled and floored) value is passed in as the oracle `r`. -/
def _torflowslice_randomIndex (numElements r : Nat) : Nat :=
  if numElements = 0 then 0 else min r (numElements - 1)

/-- One step of `_torflowslice_countProbesRemaining`: add
`numProbes >= numProbesPerRelay ? 0 : numProbesPerRelay - numProbes` to the
running total. -/
def _torflowslice_countProbesRemaining (numProbesPerRelay total : Nat) (p : String × Nat) : Nat :=
  total + (if p.2 ≥ numProbesPerRelay then 0 else numProbesPerRelay - p.2)

/-- `torflowslice_new`: fresh slice with empty partitions and empty cache. -/
def torflowslice_new (sliceID : Nat) (percentile : ℚ) (numProbesPerRelay : Nat) : TorFlowSlice :=
  { sliceID := sliceID
    percentile := percentile
    numProbesPerRelay := numProbesPerRelay
    relayIDSearch := none
    relayIDFound := false
    entries := []
    exits := []
    auths := [] }

/-- `torflowslice_addRelay`: classify into auths, exits or (unless
`onlyMeasureExits`) entries, with probe count initialized to 0. -/
def torflowslice_addRelay (s : TorFlowSlice) (relay : TorFlowRelay)
    (onlyMeasureExits : Bool) : TorFlowSlice :=
  if relay.isAuth then
    { s with auths := tableReplace s.auths relay.identity 0 }
  else if relay.isExit then
    { s with exits := tableReplace s.exits relay.identity 0 }
  else if !onlyMeasureExits then
    { s with entries := tableReplace s.entries relay.identity 0 }
  else s

/-- `torflowslice_getLength`: exits plus entries (auths excluded). -/
def torflowslice_getLength (s : TorFlowSlice) : Nat :=
  s.exits.length + s.entries.length

/-- `torflowslice_getNumProbesRemaining`: zero the total, foreach over
entries, then foreach over exits. -/
def torflowslice_getNumProbesRemaining (s : TorFlowSlice) : Nat :=
  s.exits.foldl (_torflowslice_countProbesRemaining s.numProbesPerRelay)
    (s.entries.foldl (_torflowslice_countProbesRemaining s.numProbesPerRelay) 0)

/-- `_torflowslice_mergeTables`: replace every pair of `one`, then of `two`,
into the destination table (which `chooseRelayPair` creates empty). -/
def _torflowslice_mergeTables (one two : Table) : Table :=
  (one ++ two).foldl (fun d p => tableReplace d p.1 p.2) []

/-- Second half of `torflowslice_chooseRelayPair` once a target and an auth
candidate have been picked: look the target up in entries and exits
(`gLookup`, so a zero count is indistinguishable from absence), treat it as
an entry iff the entries lookup is non-NULL, steal and re-insert it in that
table with the count incremented, and label the returned pair accordingly. -/
def _torflowslice_choosePairUpdate (s : TorFlowSlice) (targetID authID : String) :
    Option (String × String) × TorFlowSlice :=
  let entryProbeCount := gLookup s.entries targetID
  let exitProbeCount := gLookup s.exits targetID
  if entryProbeCount ≠ 0 then
    let entries2 := tableReplace (tableRemove s.entries targetID) targetID (entryProbeCount + 1)
    (some (targetID, authID), { s with entries := entries2 })
  else
    let exits2 := tableReplace (tableRemove s.exits targetID) targetID (exitProbeCount + 1)
    (some (authID, targetID), { s with exits := exits2 })

/-- `torflowslice_chooseRelayPair`: fail when no probes remain; otherwise
merge entries and exits, take the least-measured candidates of the merged
table and of the auths table, pick one of each at the oracle-provided
positions, and fail (with an error log) if either pick is NULL. -/
def torflowslice_chooseRelayPair (s : TorFlowSlice) (rT rA : Nat) :
    Option (String × String) × TorFlowSlice :=
  if torflowslice_getNumProbesRemaining s = 0 then (none, s)
  else
    let targets := _torflowslice_mergeTables s.entries s.exits
    let candidateTargets := _torflowslice_getCandidates targets
    let candidateAuths := _torflowslice_getCandidates s.auths
    match candidateTargets.get? (_torflowslice_randomIndex candidateTargets.length rT),
          candidateAuths.get? (_torflowslice_randomIndex candidateAuths.length rA) with
    | some targetID, some authID => _torflowslice_choosePairUpdate s targetID authID
    | _, _ => (none, s)

/-- ASCII lowercase of one character, as `g_ascii_tolower`. -/
def g_ascii_tolower (c : Char) : Char :=
  if 'A' ≤ c ∧ c ≤ 'Z' then Char.ofNat (c.toNat + 32) else c

/-- Equality under `g_ascii_strcasecmp` (result 0): the two strings agree
after ASCII case folding. -/
def asciiCaseEq (a b : String) : Bool :=
  decide (a.data.map g_ascii_tolower = b.data.map g_ascii_tolower)

/-- The `g_hash_table_foreach` pass of `_torflowslice_FindRelayID`: set the
found flag when a key case-folds equal to the searched identity. -/
def _torflowslice_FindRelayID (search : String) (found : Bool) (t : Table) : Bool :=
  t.foldl (fun f p => if asciiCaseEq p.1 search then true else f) found

/-- The scan-and-cache path of `torflowslice_contains`: search entries, then
exits only if not yet found, and store the query and its answer in the
one-slot cache. -/
def _torflowslice_scanAndCache (s : TorFlowSlice) (rid : String) : Bool × TorFlowSlice :=
  let foundEntries := _torflowslice_FindRelayID rid false s.entries
  let found := if foundEntries then foundEntries else _torflowslice_FindRelayID rid false s.exits
  (found, { s with relayIDSearch := some rid, relayIDFound := found })

/-- `torflowslice_contains`: NULL identity is false; a cached query that
case-folds equal to the identity is answered from the cache; otherwise the
cache is refreshed by a scan of entries then exits. -/
def torflowslice_contains (s : TorFlowSlice) (relayID : Option String) :
    Bool × TorFlowSlice :=
  match relayID with
  | none => (false, s)
  | some rid =>
    match s.relayIDSearch with
    | some cached =>
      if asciiCaseEq rid cached then (s.relayIDFound, s)
      else _torflowslice_scanAndCache s rid
    | none => _torflowslice_scanAndCache s rid

/-!
Aggregator embedding (`torflow-aggregator.c`).  `gdouble` arithmetic is
modelled as exact rational arithmetic (binary64 rounding is not modelled);
`gint` values are modelled as `Int` (the bandwidth sums in the claims stay
far below 2^31, so wrap-around is not modelled).
-/

/-- The C cast `(gint)(gdouble)` used for `newBandwidth` and for the node
cap threshold: truncation toward zero. -/
def gintCast (q : ℚ) : Int := Int.tdiv q.num (q.den : Int)

/-- One `TorFlowRelayStats` entry of the aggregator's stats table. -/
structure TorFlowRelayStats where
  nickname : String
  identity : String
  descriptorBandwidth : Int
  advertisedBandwidth : Int
  newBandwidth : Int
  meanBandwidth : Int
  filteredBandwidth : Int
  deriving DecidableEq

/-- State of `struct _TorFlowAggregator`.  The identity-keyed
`GHashTable* relayStats` is modelled as a list of entries with unique
identities, in table-iteration order. -/
structure TorFlowAggregator where
  numWorkers : Int
  gotInitial : Bool
  filename : String
  relayStats : List TorFlowRelayStats
  nodeCap : ℚ
  version : Int
  deriving DecidableEq

/-- `g_hash_table_insert` on the stats table: replace the binding of an
identity already present, otherwise append. -/
def statsInsert : List TorFlowRelayStats → TorFlowRelayStats → List TorFlowRelayStats
  | [], x => [x]
  | y :: rest, x => if y.identity = x.identity then x :: rest else y :: statsInsert rest x

/-- First two loops of `_torflowaggregator_printToFile`: total the mean and
filtered bandwidths over the whole stats table, average them over the table
size, then set each entry's `newBandwidth` to the gint cast of
`advertisedBandwidth * fmax(meanBandwidth/avgMeanBW, filteredBandwidth/avgFiltBW)`. -/
def _torflowaggregator_computeNewBandwidths (stats : List TorFlowRelayStats) :
    List TorFlowRelayStats :=
  let totalMeanBW : Int := stats.foldl (fun a c => a + c.meanBandwidth) 0
  let totalFiltBW : Int := stats.foldl (fun a c => a + c.filteredBandwidth) 0
  let avgMeanBW : ℚ := (totalMeanBW : ℚ) / (stats.length : ℚ)
  let avgFiltBW : ℚ := (totalFiltBW : ℚ) / (stats.length : ℚ)
  stats.map (fun c =>
    { c with newBandwidth := gintCast ((c.advertisedBandwidth : ℚ) *
        max ((c.meanBandwidth : ℚ) / avgMeanBW) ((c.filteredBandwidth : ℚ) / avgFiltBW)) })

/-- Observable outcome of one `_torflowaggregator_printToFile` call: the
mutated aggregator, the versioned file it wrote (name, header timestamp and
relay lines) and the log output, split by level (`messages` is the
MESSAGE-level capping log, `warnings` the WARNING-level symlink log). -/
structure PublishResult where
  aggregator : TorFlowAggregator
  outFilename : String
  header : Int
  lines : List String
  messages : List String
  warnings : List String
  deriving DecidableEq

/-- `_torflowaggregator_printToFile`.  `now` is the `CLOCK_REALTIME`
timestamp; `unlinkRet` and `symlinkRet` are the return values of the
`unlink` and `symlink` calls (0 on success, -1 on failure).  The C code
tests `if(!unlink(...))` and `if(!symlink(...))`, so the two warnings fire
exactly when the corresponding call returns 0. -/
def _torflowaggregator_printToFile (tfa : TorFlowAggregator)
    (now unlinkRet symlinkRet : Int) : PublishResult :=
  let stats1 := _torflowaggregator_computeNewBandwidths tfa.relayStats
  let totalBW : Int := stats1.foldl (fun a c => a + c.newBandwidth) 0
  let newFilename := tfa.filename ++ "." ++ toString tfa.version
  let capThreshold : Int := gintCast ((totalBW : ℚ) * tfa.nodeCap)
  let stats2 := stats1.map (fun c =>
    if capThreshold < c.newBandwidth then { c with newBandwidth := capThreshold } else c)
  let capMessages := (stats1.filter (fun c => capThreshold < c.newBandwidth)).map (fun c =>
    "Capping bandwidth for extremely fast relay " ++ c.nickname)
  let fileLines := stats2.map (fun c =>
    "node_id=$" ++ c.identity ++ " bw=" ++ toString c.newBandwidth ++ " nick=" ++ c.nickname)
  let unlinkWarnings := if unlinkRet = 0 then
    ["Unable to remove symlink to " ++ tfa.filename] else []
  let symlinkWarnings := if symlinkRet = 0 then
    ["Unable to create symlink from " ++ newFilename ++ " to " ++ tfa.filename] else []
  { aggregator := { tfa with relayStats := stats2, version := tfa.version + 1 }
    outFilename := newFilename
    header := now
    lines := fileLines
    messages := capMessages
    warnings := unlinkWarnings ++ symlinkWarnings }

/-- `torflowaggregator_reportInitial`: a no-op after the first call;
otherwise every reported relay is inserted with its descriptor bandwidth
standing in for both mean and filtered bandwidth (`g_new0` zeroes
`newBandwidth`). -/
def torflowaggregator_reportInitial (tfa : TorFlowAggregator)
    (relays : List TorFlowRelay) : TorFlowAggregator :=
  if tfa.gotInitial then tfa
  else
    { tfa with
      gotInitial := true
      relayStats := relays.foldl (fun table current =>
        statsInsert table
          { nickname := current.nickname
            identity := current.identity
            descriptorBandwidth := current.descriptorBandwidth
            advertisedBandwidth := current.advertisedBandwidth
            newBandwidth := 0
            meanBandwidth := current.descriptorBandwidth
            filteredBandwidth := current.descriptorBandwidth }) tfa.relayStats }

/-- `torflowaggregator_new`: empty stats table, version 0, not yet seeded. -/
def torflowaggregator_new (filename : String) (numWorkers : Int) (nodeCap : ℚ) :
    TorFlowAggregator :=
  { numWorkers := numWorkers
    gotInitial := false
    filename := filename
    relayStats := []
    nodeCap := nodeCap
    version := 0 }

/-!
Concrete states used by the per-claim evaluations, counterexamples and
witnesses below.
-/

/-- Slice refuting claim C1 as stated: one exit still needing a probe, but
an empty authorities partition. -/
def c1Slice : TorFlowSlice :=
  { sliceID := 0, percentile := 0, numProbesPerRelay := 1, relayIDSearch := none
    relayIDFound := false, entries := [], exits := [("E", 0)], auths := [] }

/-- Slice witnessing the amended claim C1 on a concrete success input. -/
def c1WitnessSlice : TorFlowSlice :=
  { sliceID := 0, percentile := 0, numProbesPerRelay := 1, relayIDSearch := none
    relayIDFound := false, entries := [("A", 0)], exits := [], auths := [("X", 0)] }

/-- Slice witnessing claim C4 on a concrete success input. -/
def c4Slice : TorFlowSlice :=
  { sliceID := 0, percentile := 0, numProbesPerRelay := 2, relayIDSearch := none
    relayIDFound := false, entries := [("A", 1)], exits := [("E", 1)], auths := [("X", 0)] }

/-- Slice exhibiting the zero-count bug of claim C3: a fresh entry relay A
with probe count 0, no exits, one authority X. -/
def c3Slice : TorFlowSlice :=
  { sliceID := 0, percentile := 0, numProbesPerRelay := 1, relayIDSearch := none
    relayIDFound := false, entries := [("A", 0)], exits := [], auths := [("X", 0)] }

/-- Slice refuting claim C10 as stated: the one-slot cache holds the
case-variant query a with a negative answer recorded before relay A was
added to the entries partition. -/
def c10Slice : TorFlowSlice :=
  torflowslice_addRelay ((torflowslice_contains (torflowslice_new 0 0 1) (some "a")).2)
    { identity := "A", nickname := "nickA", isAuth := false, isExit := false
      descriptorBandwidth := 100, advertisedBandwidth := 100 } false

/-- Slice witnessing the amended claim C10 on a concrete query. -/
def c10WitnessSlice : TorFlowSlice :=
  torflowslice_addRelay (torflowslice_new 0 0 1)
    { identity := "Relay", nickname := "nickR", isAuth := false, isExit := true
      descriptorBandwidth := 10, advertisedBandwidth := 10 } false

/-- Slice refuting claim C9 as stated: relay A is queried (negatively
cached) on the fresh slice, then added as an exit; the stale cache then
answers the repeated query. -/
def c9Slice : TorFlowSlice :=
  torflowslice_addRelay ((torflowslice_contains (torflowslice_new 0 0 1) (some "A")).2)
    { identity := "A", nickname := "nickA", isAuth := false, isExit := true
      descriptorBandwidth := 100, advertisedBandwidth := 100 } false

/-- Relay used by the witness of the amended claim C9. -/
def c9WitnessRelay : TorFlowRelay :=
  { identity := "W", nickname := "nickW", isAuth := false, isExit := false
    descriptorBandwidth := 10, advertisedBandwidth := 10 }

/-- Stats table refuting the exact-equality reading of claim C2: two relays
with advertised bandwidth 1 and mean and filtered bandwidths 1 and 2. -/
def c2Stats : List TorFlowRelayStats :=
  [ { nickname := "na", identity := "A", descriptorBandwidth := 1, advertisedBandwidth := 1
      newBandwidth := 0, meanBandwidth := 1, filteredBandwidth := 1 },
    { nickname := "nb", identity := "B", descriptorBandwidth := 1, advertisedBandwidth := 1
      newBandwidth := 0, meanBandwidth := 2, filteredBandwidth := 2 } ]

/-- Aggregator state used to evaluate the symlink warning behaviour: one
relay R1 with all bandwidth statistics equal to 100, node cap 1. -/
def c7Agg : TorFlowAggregator :=
  ⟨1, true, "v3bw", [⟨"n1", "R1", 100, 100, 0, 100, 100⟩], 1, 0⟩

/-- The three relays of the claim C8 seeding scenario, with advertised
bandwidth equal to descriptor bandwidth. -/
def c8Relays : List TorFlowRelay :=
  [ ⟨"A", "nickA", false, false, 100, 100⟩,
    ⟨"B", "nickB", false, false, 200, 200⟩,
    ⟨"C", "nickC", false, false, 300, 300⟩ ]

/-- Aggregator seeded by a first `reportInitial` call with `c8Relays`. -/
def c8Agg : TorFlowAggregator :=
  torflowaggregator_reportInitial (torflowaggregator_new "v3bw" 3 1) c8Relays

/-! Helper lemmas about the association-table model. -/

theorem tableReplace_ne_nil (t : Table) (k : String) (v : Nat) : tableReplace t k v ≠ [] := by
  cases t with
  | nil => simp [tableReplace]
  | cons p rest =>
    simp only [tableReplace]
    split <;> simp

theorem mem_tableReplace_self (t : Table) (k : String) (v : Nat) :
    (k, v) ∈ tableReplace t k v := by
  induction t with
  | nil => simp [tableReplace]
  | cons p rest ih =>
    simp only [tableReplace]
    split
    · exact List.mem_cons_self _ _
    · exact List.mem_cons_of_mem _ ih

theorem mem_of_mem_tableReplace {t : Table} {k : String} {v : Nat} {p : String × Nat}
    (h : p ∈ tableReplace t k v) : p ∈ t ∨ p = (k, v) := by
  induction t with
  | nil => simp [tableReplace] at h; exact Or.inr h
  | cons q rest ih =>
    simp only [tableReplace] at h
    split at h
    · rcases List.mem_cons.mp h with h1 | h1
      · exact Or.inr h1
      · exact Or.inl (List.mem_cons_of_mem _ h1)
    · rcases List.mem_cons.mp h with h1 | h1
      · exact Or.inl (h1 ▸ List.mem_cons_self _ _)
      · rcases ih h1 with h2 | h2
        · exact Or.inl (List.mem_cons_of_mem _ h2)
        · exact Or.inr h2

theorem mem_tableReplace_of_mem {t : Table} {p : String × Nat} (k : String) (v : Nat)
    (h : p ∈ t) (hk : p.1 ≠ k) : p ∈ tableReplace t k v := by
  induction t with
  | nil => simp at h
  | cons q rest ih =>
    simp only [tableReplace]
    rcases List.mem_cons.mp h with h1 | h1
    · subst h1
      split
      · exact absurd (by assumption) hk
      · exact List.mem_cons_self _ _
    · split
      · exact List.mem_cons_of_mem _ h1
      · exact List.mem_cons_of_mem _ (ih h1)

theorem tableLookup_eq_some_of_mem {t : Table} {k : String} {v : Nat}
    (hnd : (tableKeys t).Nodup) (h : (k, v) ∈ t) : tableLookup t k = some v := by
  induction t with
  | nil => simp at h
  | cons q rest ih =>
    simp only [tableKeys, List.map_cons, List.nodup_cons] at hnd
    rcases List.mem_cons.mp h with h1 | h1
    · simp [tableLookup, ← h1]
    · have hne : q.1 ≠ k := by
        intro hq
        exact hnd.1 (hq ▸ List.mem_map_of_mem Prod.fst h1)
      simpa [tableLookup, hne] using ih (by simpa [tableKeys] using hnd.2) h1

/-! Minimum-probe fold lemmas. -/

theorem foldl_min_le_init (t : Table) (a : Nat) :
    t.foldl (fun m p => min m p.2) a ≤ a := by
  induction t generalizing a with
  | nil => simp
  | cons q rest ih => exact le_trans (ih (min a q.2)) (min_le_left _ _)

theorem foldl_min_le_mem {t : Table} {p : String × Nat} (a : Nat) (hp : p ∈ t) :
    t.foldl (fun m p => min m p.2) a ≤ p.2 := by
  induction t generalizing a with
  | nil => simp at hp
  | cons q rest ih =>
    rcases List.mem_cons.mp hp with h1 | h1
    · subst h1
      exact le_trans (foldl_min_le_init rest (min a p.2)) (min_le_right _ _)
    · exact ih _ h1

theorem foldl_min_cases (t : Table) (a : Nat) :
    t.foldl (fun m p => min m p.2) a = a ∨
      ∃ p ∈ t, t.foldl (fun m p => min m p.2) a = p.2 := by
  induction t generalizing a with
  | nil => simp
  | cons q rest ih =>
    rcases ih (min a q.2) with h | ⟨p, hp, he⟩
    · rcases min_cases a q.2 with ⟨hm, _⟩ | ⟨hm, _⟩
      · exact Or.inl (by simpa [hm] using h)
      · exact Or.inr ⟨q, List.mem_cons_self _ _, by simpa [hm] using h⟩
    · exact Or.inr ⟨p, List.mem_cons_of_mem _ hp, he⟩

theorem mem_getCandidates {t : Table} {c : String} (h : c ∈ _torflowslice_getCandidates t) :
    ∃ v, (c, v) ∈ t ∧ v = _torflowslice_computeMinProbes t := by
  rcases List.mem_map.mp h with ⟨p, hp, he⟩
  rcases List.mem_filter.mp hp with ⟨hmem, hval⟩
  exact ⟨p.2, by simpa [← he] using hmem, by simpa using hval⟩

theorem getCandidates_ne_nil {t : Table} (h1 : t ≠ [])
    (h2 : ∀ p ∈ t, p.2 ≤ UINT_MAX) : _torflowslice_getCandidates t ≠ [] := by
  obtain ⟨p0, hp0⟩ := List.exists_mem_of_ne_nil t h1
  have hmin : ∃ p ∈ t, p.2 = _torflowslice_computeMinProbes t := by
    rcases foldl_min_cases t UINT_MAX with h | ⟨p, hp, he⟩
    · refine ⟨p0, hp0, le_antisymm ?_ ?_⟩
      · exact h2 p0 hp0 |>.trans (le_of_eq h.symm)
      · exact foldl_min_le_mem UINT_MAX hp0
    · exact ⟨p, hp, he.symm⟩
  rcases hmin with ⟨p, hp, he⟩
  have : p.1 ∈ _torflowslice_getCandidates t := by
    refine List.mem_map_of_mem Prod.fst (List.mem_filter.mpr ⟨hp, ?_⟩)
    simpa using he
  exact List.ne_nil_of_mem this

/-! Merge-fold lemmas.  `_torflowslice_mergeTables one two` is
`(one ++ two).foldl (fun d p => tableReplace d p.1 p.2) []`. -/

theorem mem_of_mem_mergeFold {l : Table} {d : Table} {p : String × Nat}
    (h : p ∈ l.foldl (fun d p => tableReplace d p.1 p.2) d) : p ∈ d ∨ p ∈ l := by
  induction l generalizing d with
  | nil => exact Or.inl h
  | cons q rest ih =>
    rcases ih (by simpa using h) with h1 | h1
    · rcases mem_of_mem_tableReplace h1 with h2 | h2
      · exact Or.inl h2
      · exact Or.inr (by simp [h2])
    · exact Or.inr (List.mem_cons_of_mem _ h1)

theorem mem_mergeFold_of_mem_left {l : Table} {d : Table} {p : String × Nat}
    (h : p ∈ d) (hk : ∀ q ∈ l, q.1 ≠ p.1) :
    p ∈ l.foldl (fun d p => tableReplace d p.1 p.2) d := by
  induction l generalizing d with
  | nil => exact h
  | cons q rest ih =>
    refine ih (mem_tableReplace_of_mem q.1 q.2 h ?_) (fun r hr => hk r (List.mem_cons_of_mem _ hr))
    exact fun he => hk q (List.mem_cons_self _ _) he.symm

theorem mem_mergeFold_of_mem {l : Table} {d : Table} {p : String × Nat}
    (hnd : (tableKeys l).Nodup) (h : p ∈ l) :
    p ∈ l.foldl (fun d p => tableReplace d p.1 p.2) d := by
  induction l generalizing d with
  | nil => simp at h
  | cons q rest ih =>
    simp only [tableKeys, List.map_cons, List.nodup_cons] at hnd
    simp only [List.foldl_cons]
    rcases List.mem_cons.mp h with h1 | h1
    · subst h1
      refine mem_mergeFold_of_mem_left (by simpa using mem_tableReplace_self d p.1 p.2) ?_
      intro r hr he
      exact hnd.1 (he ▸ List.mem_map_of_mem Prod.fst hr)
    · exact ih (by simpa [tableKeys] using hnd.2) h1

theorem mergeFold_ne_nil {l : Table} {d : Table} (h : d ≠ [] ∨ l ≠ []) :
    l.foldl (fun d p => tableReplace d p.1 p.2) d ≠ [] := by
  induction l generalizing d with
  | nil => simpa using h.resolve_right (by simp)
  | cons q rest ih =>
    exact ih (Or.inl (tableReplace_ne_nil d q.1 q.2))

theorem randomIndex_lt {n : Nat} (r : Nat) (h : n ≠ 0) : _torflowslice_randomIndex n r < n := by
  have hn : 0 < n := Nat.pos_of_ne_zero h
  simp only [_torflowslice_randomIndex, if_neg h]
  omega

/-! Remaining-probe fold lemmas. -/

theorem foldl_countProbes (n : Nat) (l : Table) (a : Nat) :
    l.foldl (_torflowslice_countProbesRemaining n) a
      = a + (l.map (fun p => if p.2 ≥ n then 0 else n - p.2)).sum := by
  induction l generalizing a with
  | nil => simp
  | cons q rest ih =>
    simp only [List.foldl_cons, List.map_cons, List.sum_cons, ih,
      _torflowslice_countProbesRemaining]
    omega

theorem getNumProbesRemaining_eq (s : TorFlowSlice) :
    torflowslice_getNumProbesRemaining s
      = ((s.entries ++ s.exits).map
          (fun p => if p.2 ≥ s.numProbesPerRelay then 0 else s.numProbesPerRelay - p.2)).sum := by
  simp [torflowslice_getNumProbesRemaining, foldl_countProbes]

/-! Case-insensitive search lemmas. -/

theorem asciiCaseEq_refl (a : String) : asciiCaseEq a a = true := by
  simp [asciiCaseEq]

theorem findRelayID_eq (search : String) (b : Bool) (t : Table) :
    _torflowslice_FindRelayID search b t = (b || t.any (fun p => asciiCaseEq p.1 search)) := by
  induction t generalizing b with
  | nil => simp [_torflowslice_FindRelayID]
  | cons q rest ih =>
    simp only [_torflowslice_FindRelayID, List.foldl_cons] at ih ⊢
    by_cases hq : asciiCaseEq q.1 search = true
    · rw [if_pos hq, ih, List.any_cons, hq]
      simp
    · rw [if_neg hq, ih, List.any_cons]
      simp [hq]

theorem deficit_cast (n c : Nat) :
    (((if c ≥ n then 0 else n - c : Nat)) : ℤ) = max 0 ((n : ℤ) - (c : ℤ)) := by
  split <;> [skip; skip] <;> omega

theorem deficit_sum_cast (n : Nat) (l : Table) :
    (((l.map (fun p => if p.2 ≥ n then 0 else n - p.2)).sum : Nat) : ℤ)
      = (l.map (fun p => max 0 ((n : ℤ) - (p.2 : ℤ)))).sum := by
  induction l with
  | nil => simp
  | cons q rest ih =>
    simp only [List.map_cons, List.sum_cons, Nat.cast_add, ih, deficit_cast]

/-- Claim C5: `getNumProbesRemaining` sums `max(0, numProbesPerRelay - count)`
over every relay of the entries and exits partitions, and the authorities
partition contributes nothing (the result is invariant under replacing it). -/
theorem getNumProbesRemaining_sum_deficits_auths_ignored (s : TorFlowSlice) :
    (((torflowslice_getNumProbesRemaining s : Nat)) : ℤ)
        = ((s.entries ++ s.exits).map
            (fun p => max 0 ((s.numProbesPerRelay : ℤ) - (p.2 : ℤ)))).sum
    ∧ ∀ auths2 : Table,
        torflowslice_getNumProbesRemaining { s with auths := auths2 }
          = torflowslice_getNumProbesRemaining s := by
  refine ⟨?_, fun auths2 => rfl⟩
  rw [getNumProbesRemaining_eq, deficit_sum_cast]

/-- Claim C6: every publish increments the aggregator version by exactly 1,
for every outcome of the unlink and symlink steps; the file written carries
the pre-increment version in its name; and a fresh aggregator starts at
version 0. -/
theorem publish_increments_version_and_names_file
    (tfa : TorFlowAggregator) (now ur sr : Int) :
    ((_torflowaggregator_printToFile tfa now ur sr).aggregator.version = tfa.version + 1)
    ∧ ((_torflowaggregator_printToFile tfa now ur sr).outFilename
        = tfa.filename ++ "." ++ toString tfa.version)
    ∧ (∀ (f : String) (n : Int) (c : ℚ), (torflowaggregator_new f n c).version = 0) :=
  ⟨rfl, rfl, fun _ _ _ => rfl⟩

/-- Claim C1, counterexample: on `c1Slice` the remaining-probe count is 1,
yet `chooseRelayPair` returns no pair, because the authority candidate set
is empty and the NULL-candidate error path fires. -/
theorem chooseRelayPair_none_despite_probes_remaining :
    torflowslice_getNumProbesRemaining c1Slice = 1 ∧
      (torflowslice_chooseRelayPair c1Slice 0 0).1 = none := by
  decide

/-- Claim C1 (amended): `chooseRelayPair` returns no pair iff the
remaining-probe count is zero or the authorities partition is empty; with
probes remaining and at least one authority it always returns a pair.  The
hypotheses state that all stored counts are in `guint` range, which holds
of every C execution. -/
theorem chooseRelayPair_none_iff_no_probes_or_no_auths (s : TorFlowSlice) (rT rA : Nat)
    (hE : ∀ p ∈ s.entries, p.2 ≤ UINT_MAX) (hX : ∀ p ∈ s.exits, p.2 ≤ UINT_MAX)
    (hA : ∀ p ∈ s.auths, p.2 ≤ UINT_MAX) :
    (torflowslice_chooseRelayPair s rT rA).1 = none ↔
      (torflowslice_getNumProbesRemaining s = 0 ∨ s.auths = []) := by
  by_cases hz : torflowslice_getNumProbesRemaining s = 0
  · simp [torflowslice_chooseRelayPair, hz]
  · have hne : s.entries ++ s.exits ≠ [] := by
      intro hcon
      rcases List.append_eq_nil.mp hcon with ⟨he, hx⟩
      exact hz (by simp [torflowslice_getNumProbesRemaining, he, hx,
        _torflowslice_countProbesRemaining])
    have htargets : _torflowslice_mergeTables s.entries s.exits ≠ [] :=
      mergeFold_ne_nil (Or.inr hne)
    have htIn : ∀ p ∈ _torflowslice_mergeTables s.entries s.exits, p.2 ≤ UINT_MAX := by
      intro p hp
      rcases mem_of_mem_mergeFold (l := s.entries ++ s.exits) (d := []) hp with h1 | h1
      · simp at h1
      · rcases List.mem_append.mp h1 with h2 | h2
        · exact hE p h2
        · exact hX p h2
    have hcT : _torflowslice_getCandidates (_torflowslice_mergeTables s.entries s.exits) ≠ [] :=
      getCandidates_ne_nil htargets htIn
    have hltT := randomIndex_lt (n := (_torflowslice_getCandidates
      (_torflowslice_mergeTables s.entries s.exits)).length) rT
      (fun hl => hcT (List.length_eq_zero.mp hl))
    obtain ⟨tid, htid⟩ : ∃ tid, (_torflowslice_getCandidates
        (_torflowslice_mergeTables s.entries s.exits)).get?
          (_torflowslice_randomIndex (_torflowslice_getCandidates
            (_torflowslice_mergeTables s.entries s.exits)).length rT) = some tid :=
      ⟨_, List.get?_eq_get hltT⟩
    constructor
    · intro h
      simp only [torflowslice_chooseRelayPair, if_neg hz] at h
      rw [htid] at h
      cases hA2 : (_torflowslice_getCandidates s.auths).get?
          (_torflowslice_randomIndex (_torflowslice_getCandidates s.auths).length rA) with
      | none =>
        right
        by_contra hAne
        have hcA : _torflowslice_getCandidates s.auths ≠ [] := getCandidates_ne_nil hAne hA
        have hltA := randomIndex_lt (n := (_torflowslice_getCandidates s.auths).length) rA
          (fun hl => hcA (List.length_eq_zero.mp hl))
        rw [List.get?_eq_get hltA] at hA2
        exact Option.noConfusion hA2
      | some aid =>
        rw [hA2] at h
        simp only [_torflowslice_choosePairUpdate] at h
        split at h <;> simp at h
    · intro h
      rcases h with h | h
      · exact absurd h hz
      · simp only [torflowslice_chooseRelayPair, if_neg hz]
        rw [htid]
        have hAc : _torflowslice_getCandidates s.auths = [] := by
          simp [h, _torflowslice_getCandidates]
        rw [hAc]
        simp

/-- Witness for `chooseRelayPair_none_iff_no_probes_or_no_auths` at
`c1WitnessSlice`. -/
theorem chooseRelayPair_none_iff_witness :
    (∀ p ∈ c1WitnessSlice.entries, p.2 ≤ UINT_MAX)
    ∧ (∀ p ∈ c1WitnessSlice.exits, p.2 ≤ UINT_MAX)
    ∧ (∀ p ∈ c1WitnessSlice.auths, p.2 ≤ UINT_MAX)
    ∧ ((torflowslice_chooseRelayPair c1WitnessSlice 0 0).1 = none ↔
        (torflowslice_getNumProbesRemaining c1WitnessSlice = 0 ∨ c1WitnessSlice.auths = [])) :=
  ⟨by decide, by decide, by decide,
    chooseRelayPair_none_iff_no_probes_or_no_auths c1WitnessSlice 0 0
      (by decide) (by decide) (by decide)⟩

/-- Claim C4: whenever `chooseRelayPair` succeeds on a slice whose entries
and exits partitions have unique, mutually disjoint keys (the documented
partition invariant), one component of the returned pair — the target — is a
relay of entries or exits whose pre-call probe count is the minimum count
over all relays of entries and exits. -/
theorem chooseRelayPair_target_has_min_probe_count (s : TorFlowSlice) (rT rA : Nat)
    (eID xID : String)
    (hndE : (tableKeys s.entries).Nodup) (hndX : (tableKeys s.exits).Nodup)
    (hdisj : ∀ k ∈ tableKeys s.entries, k ∉ tableKeys s.exits)
    (h : (torflowslice_chooseRelayPair s rT rA).1 = some (eID, xID)) :
    ∃ tID, (tID = eID ∨ tID = xID) ∧
      ∃ c, tableLookup (s.entries ++ s.exits) tID = some c ∧
        ∀ p ∈ s.entries ++ s.exits, c ≤ p.2 := by
  have hndEX : (tableKeys (s.entries ++ s.exits)).Nodup := by
    simp only [tableKeys, List.map_append]
    exact List.Nodup.append hndE hndX (fun k hk => hdisj k hk)
  by_cases hz : torflowslice_getNumProbesRemaining s = 0
  · simp [torflowslice_chooseRelayPair, hz] at h
  · simp only [torflowslice_chooseRelayPair, if_neg hz] at h
    cases hT : (_torflowslice_getCandidates (_torflowslice_mergeTables s.entries s.exits)).get?
        (_torflowslice_randomIndex (_torflowslice_getCandidates
          (_torflowslice_mergeTables s.entries s.exits)).length rT) with
    | none => rw [hT] at h; simp at h
    | some tid =>
      cases hA2 : (_torflowslice_getCandidates s.auths).get?
          (_torflowslice_randomIndex (_torflowslice_getCandidates s.auths).length rA) with
      | none => rw [hT, hA2] at h; simp at h
      | some aid =>
        rw [hT, hA2] at h
        have htid_mem : tid ∈ _torflowslice_getCandidates
            (_torflowslice_mergeTables s.entries s.exits) := List.get?_mem hT
        obtain ⟨v, hvmem, hvmin⟩ := mem_getCandidates htid_mem
        have hmemEX : (tid, v) ∈ s.entries ++ s.exits := by
          rcases mem_of_mem_mergeFold (l := s.entries ++ s.exits) (d := []) hvmem with h1 | h1
          · simp at h1
          · exact h1
        have hlook : tableLookup (s.entries ++ s.exits) tid = some v :=
          tableLookup_eq_some_of_mem hndEX hmemEX
        have hmin : ∀ p ∈ s.entries ++ s.exits, v ≤ p.2 := by
          intro p hp
          have hpm : p ∈ _torflowslice_mergeTables s.entries s.exits :=
            mem_mergeFold_of_mem (by simpa only [tableKeys, List.map_append] using hndEX) hp
          rw [hvmin]
          exact foldl_min_le_mem UINT_MAX hpm
        simp only [_torflowslice_choosePairUpdate] at h
        split at h
        · simp only [Option.some.injEq, Prod.mk.injEq] at h
          exact ⟨tid, Or.inl h.1, v, hlook, hmin⟩
        · simp only [Option.some.injEq, Prod.mk.injEq] at h
          exact ⟨tid, Or.inr h.2, v, hlook, hmin⟩

/-- Witness for `chooseRelayPair_target_has_min_probe_count` at `c4Slice`. -/
theorem chooseRelayPair_target_min_witness :
    ((tableKeys c4Slice.entries).Nodup ∧ (tableKeys c4Slice.exits).Nodup
      ∧ (∀ k ∈ tableKeys c4Slice.entries, k ∉ tableKeys c4Slice.exits)
      ∧ (torflowslice_chooseRelayPair c4Slice 0 0).1 = some ("A", "X"))
    ∧ (∃ tID, (tID = "A" ∨ tID = "X") ∧
        ∃ c, tableLookup (c4Slice.entries ++ c4Slice.exits) tID = some c ∧
          ∀ p ∈ c4Slice.entries ++ c4Slice.exits, c ≤ p.2) :=
  ⟨⟨by decide, by decide, by decide, by decide⟩,
    chooseRelayPair_target_has_min_probe_count c4Slice 0 0 "A" "X"
      (by decide) (by decide) (by decide) (by decide)⟩

/-- Claim C3, code-bug evaluation.  `GUINT_TO_POINTER 0` is NULL, so the
entries lookup of a zero-count entry relay returns NULL and the code takes
the exit branch: instead of bumping the chosen target A from 0 to 1 inside
the entries partition, it leaves the entries counter of A at 0, creates a
brand-new exits counter for A at 1, and returns A labelled as the exit of
the pair.  Consequently the remaining-probe count is still 1 after the
probe instead of dropping to 0. -/
theorem chooseRelayPair_zero_count_entry_misclassified :
    (torflowslice_chooseRelayPair c3Slice 0 0
        = (some ("X", "A"), { c3Slice with exits := [("A", 1)] }))
    ∧ (torflowslice_chooseRelayPair c3Slice 0 0).2.entries = [("A", 0)]
    ∧ torflowslice_getNumProbesRemaining (torflowslice_chooseRelayPair c3Slice 0 0).2 = 1
    ∧ torflowslice_getNumProbesRemaining c3Slice = 1 := by
  refine ⟨by decide, by decide, by decide, by decide⟩

/-! Helper lemmas about `torflowslice_contains`. -/

theorem addRelay_relayIDSearch (s : TorFlowSlice) (r : TorFlowRelay) (b : Bool) :
    (torflowslice_addRelay s r b).relayIDSearch = s.relayIDSearch := by
  unfold torflowslice_addRelay
  split
  · rfl
  · split
    · rfl
    · split
      · rfl
      · rfl

theorem contains_some_eq_scan (s : TorFlowSlice) (id : String)
    (hc : ∀ cached, s.relayIDSearch = some cached → asciiCaseEq id cached = false) :
    torflowslice_contains s (some id) = _torflowslice_scanAndCache s id := by
  cases hs : s.relayIDSearch with
  | none => simp [torflowslice_contains, hs]
  | some cached => simp [torflowslice_contains, hs, hc cached hs]

theorem scanAndCache_fst (s : TorFlowSlice) (rid : String) :
    (_torflowslice_scanAndCache s rid).1
      = (s.entries.any (fun p => asciiCaseEq p.1 rid)
          || s.exits.any (fun p => asciiCaseEq p.1 rid)) := by
  simp only [_torflowslice_scanAndCache, findRelayID_eq, Bool.false_or]
  cases hE : s.entries.any (fun p => asciiCaseEq p.1 rid) <;> simp

theorem contains_true_of_mem (s : TorFlowSlice) (id : String)
    (hc : ∀ cached, s.relayIDSearch = some cached → asciiCaseEq id cached = false)
    (h : (∃ p ∈ s.entries, asciiCaseEq p.1 id = true)
        ∨ (∃ p ∈ s.exits, asciiCaseEq p.1 id = true)) :
    (torflowslice_contains s (some id)).1 = true := by
  rw [contains_some_eq_scan s id hc, scanAndCache_fst, Bool.or_eq_true]
  rcases h with h | h
  · exact Or.inl (List.any_eq_true.mpr (by simpa using h))
  · exact Or.inr (List.any_eq_true.mpr (by simpa using h))

/-- Claim C10 (amended): membership testing is ASCII case-insensitive — for
any slice whose one-slot cache does not hold (a case variant of) the
queried identity, `contains` returns true iff some key of the entries
partition or, failing that, of the exits partition equals the identity up
to ASCII case folding; and a NULL identity returns false rather than
aborting.  (With a stale cache hit for the identity, the cached answer is
returned instead — see the counterexample.) -/
theorem contains_case_insensitive_iff (s : TorFlowSlice) (id : String)
    (hc : ∀ cached, s.relayIDSearch = some cached → asciiCaseEq id cached = false) :
    ((torflowslice_contains s (some id)).1 = true ↔
      ((∃ p ∈ s.entries, asciiCaseEq p.1 id = true)
        ∨ (∃ p ∈ s.exits, asciiCaseEq p.1 id = true)))
    ∧ (torflowslice_contains s none).1 = false := by
  refine ⟨?_, rfl⟩
  rw [contains_some_eq_scan s id hc, scanAndCache_fst, Bool.or_eq_true]
  constructor
  · intro h
    rcases h with h | h
    · exact Or.inl (by simpa using List.any_eq_true.mp h)
    · exact Or.inr (by simpa using List.any_eq_true.mp h)
  · intro h
    rcases h with h | h
    · exact Or.inl (List.any_eq_true.mpr (by simpa using h))
    · exact Or.inr (List.any_eq_true.mpr (by simpa using h))

/-- Claim C10, counterexample: on `c10Slice` the entries partition holds the
key A, which case-folds equal to the queried identity A, yet `contains`
returns the stale cached false (the cached query a case-folds equal to A,
so the scan is skipped). -/
theorem contains_stale_cache_case_variant :
    (torflowslice_contains c10Slice (some "A")).1 = false
    ∧ ("A", 0) ∈ c10Slice.entries ∧ asciiCaseEq "A" "A" = true := by
  refine ⟨by decide, by decide, by decide⟩

/-- Witness for `contains_case_insensitive_iff` at `c10WitnessSlice` and the
case-variant query relay. -/
theorem contains_case_insensitive_witness :
    (∀ cached, c10WitnessSlice.relayIDSearch = some cached →
        asciiCaseEq "relay" cached = false)
    ∧ (((torflowslice_contains c10WitnessSlice (some "relay")).1 = true ↔
          ((∃ p ∈ c10WitnessSlice.entries, asciiCaseEq p.1 "relay" = true)
            ∨ (∃ p ∈ c10WitnessSlice.exits, asciiCaseEq p.1 "relay" = true)))
        ∧ (torflowslice_contains c10WitnessSlice none).1 = false) :=
  ⟨fun _ h => Option.noConfusion h,
    contains_case_insensitive_iff c10WitnessSlice "relay" (fun _ h => Option.noConfusion h)⟩

/-- Claim C9 (amended): (a) after `addRelay(r, false)` with `r` not an
authority, `contains(r.identity)` returns true provided the one-slot cache
does not already hold r.identity (or a case variant of it) from a query
made before the add — with such a stale negative cache entry the cached
false is returned instead; (b) a freshly built slice contains nothing; (c)
querying the same identity twice in a row returns the same answer and
state the second time, and the repeated answer is served from the cache
alone: it does not depend on the partitions at all. -/
theorem contains_roundtrip_with_fresh_cache (s s2 : TorFlowSlice) (r : TorFlowRelay)
    (id id2 : String) (i n : Nat) (q : ℚ)
    (hr : r.isAuth = false)
    (hc : ∀ cached, s.relayIDSearch = some cached → asciiCaseEq r.identity cached = false) :
    (torflowslice_contains (torflowslice_addRelay s r false) (some r.identity)).1 = true
    ∧ (torflowslice_contains (torflowslice_new i q n) (some id)).1 = false
    ∧ (torflowslice_contains (torflowslice_contains s2 (some id2)).2 (some id2)
        = ((torflowslice_contains s2 (some id2)).1, (torflowslice_contains s2 (some id2)).2))
    ∧ (∀ e x a : Table,
        (torflowslice_contains
          { (torflowslice_contains s2 (some id2)).2 with
              entries := e, exits := x, auths := a } (some id2)).1
        = (torflowslice_contains s2 (some id2)).1) := by
  refine ⟨?_, ?_, ?_, ?_⟩
  · have hcache : ∀ cached, (torflowslice_addRelay s r false).relayIDSearch = some cached →
        asciiCaseEq r.identity cached = false := by
      intro c hcc
      exact hc c ((addRelay_relayIDSearch s r false) ▸ hcc)
    refine contains_true_of_mem _ _ hcache ?_
    by_cases hx : r.isExit = true
    · right
      refine ⟨(r.identity, 0), ?_, asciiCaseEq_refl _⟩
      have hswap : (torflowslice_addRelay s r false).exits
          = tableReplace s.exits r.identity 0 := by
        simp [torflowslice_addRelay, hr, hx]
      rw [hswap]
      exact mem_tableReplace_self _ _ _
    · left
      refine ⟨(r.identity, 0), ?_, asciiCaseEq_refl _⟩
      have hswap : (torflowslice_addRelay s r false).entries
          = tableReplace s.entries r.identity 0 := by
        simp [torflowslice_addRelay, hr, hx]
      rw [hswap]
      exact mem_tableReplace_self _ _ _
  · rfl
  · cases hs2 : s2.relayIDSearch with
    | none =>
      have h1 : torflowslice_contains s2 (some id2) = _torflowslice_scanAndCache s2 id2 := by
        simp [torflowslice_contains, hs2]
      rw [h1]
      simp [torflowslice_contains, _torflowslice_scanAndCache, asciiCaseEq_refl]
    | some c0 =>
      by_cases hcc : asciiCaseEq id2 c0 = true
      · simp [torflowslice_contains, hs2, hcc]
      · have h1 : torflowslice_contains s2 (some id2) = _torflowslice_scanAndCache s2 id2 := by
          simp [torflowslice_contains, hs2, hcc]
        rw [h1]
        simp [torflowslice_contains, _torflowslice_scanAndCache, asciiCaseEq_refl]
  · intro e x a
    cases hs2 : s2.relayIDSearch with
    | none =>
      have h1 : torflowslice_contains s2 (some id2) = _torflowslice_scanAndCache s2 id2 := by
        simp [torflowslice_contains, hs2]
      rw [h1]
      simp [torflowslice_contains, _torflowslice_scanAndCache, asciiCaseEq_refl]
    | some c0 =>
      by_cases hcc : asciiCaseEq id2 c0 = true
      · simp [torflowslice_contains, hs2, hcc]
      · have h1 : torflowslice_contains s2 (some id2) = _torflowslice_scanAndCache s2 id2 := by
          simp [torflowslice_contains, hs2, hcc]
        rw [h1]
        simp [torflowslice_contains, _torflowslice_scanAndCache, asciiCaseEq_refl]

/-- Claim C9, counterexample: `addRelay` placed A in the exits partition,
yet the following `contains` query for A returns false, served from the
stale negative cache entry recorded before the add. -/
theorem contains_stale_cache_after_addRelay :
    tableLookup c9Slice.exits "A" = some 0
    ∧ (torflowslice_contains c9Slice (some "A")).1 = false := by
  refine ⟨by decide, by decide⟩

/-- Witness for `contains_roundtrip_with_fresh_cache` at fresh slices and
`c9WitnessRelay`. -/
theorem contains_roundtrip_witness :
    (c9WitnessRelay.isAuth = false
      ∧ ∀ cached, (torflowslice_new 1 0 1).relayIDSearch = some cached →
          asciiCaseEq c9WitnessRelay.identity cached = false)
    ∧ ((torflowslice_contains (torflowslice_addRelay (torflowslice_new 1 0 1) c9WitnessRelay false)
          (some c9WitnessRelay.identity)).1 = true
      ∧ (torflowslice_contains (torflowslice_new 3 0 1) (some "b")).1 = false
      ∧ (torflowslice_contains (torflowslice_contains (torflowslice_new 2 0 1) (some "c")).2 (some "c")
          = ((torflowslice_contains (torflowslice_new 2 0 1) (some "c")).1,
              (torflowslice_contains (torflowslice_new 2 0 1) (some "c")).2))
      ∧ (∀ e x a : Table,
          (torflowslice_contains
            { (torflowslice_contains (torflowslice_new 2 0 1) (some "c")).2 with
                entries := e, exits := x, auths := a } (some "c")).1
          = (torflowslice_contains (torflowslice_new 2 0 1) (some "c")).1)) :=
  ⟨⟨rfl, fun _ h => Option.noConfusion h⟩,
    contains_roundtrip_with_fresh_cache (torflowslice_new 1 0 1) (torflowslice_new 2 0 1)
      c9WitnessRelay "b" "c" 3 1 0 rfl (fun _ h => Option.noConfusion h)⟩

/-! Helper lemmas for the aggregator claims. -/

theorem gintCast_intCast (n : ℤ) : gintCast ((n : ℤ) : ℚ) = n := by
  simp [gintCast, Rat.num_intCast, Rat.den_intCast]

theorem foldl_add_int_cast (f : TorFlowRelayStats → Int) (l : List TorFlowRelayStats) (a : Int) :
    ((l.foldl (fun acc c => acc + f c) a : Int) : ℚ)
      = (a : ℚ) + (l.map (fun d => ((f d : Int) : ℚ))).sum := by
  induction l generalizing a with
  | nil => simp
  | cons q rest ih =>
    simp only [List.foldl_cons, List.map_cons, List.sum_cons, ih]
    push_cast
    ring

/-- Pointwise description of the first two publish loops: entry `i` of the
recomputed stats table carries the gint truncation of
`advertisedBandwidth * max(meanBandwidth/avgMean, filteredBandwidth/avgFiltered)`
where the averages are arithmetic means over the whole table. -/
theorem computeNewBandwidths_get? (stats : List TorFlowRelayStats) (i : Nat) :
    ((_torflowaggregator_computeNewBandwidths stats).get? i).map (fun c => c.newBandwidth)
      = (stats.get? i).map (fun c =>
          gintCast ((c.advertisedBandwidth : ℚ) *
            max ((c.meanBandwidth : ℚ)
                  / ((stats.map (fun d => ((d.meanBandwidth : Int) : ℚ))).sum / (stats.length : ℚ)))
                ((c.filteredBandwidth : ℚ)
                  / ((stats.map (fun d => ((d.filteredBandwidth : Int) : ℚ))).sum / (stats.length : ℚ))))) := by
  have hm := foldl_add_int_cast (fun c => c.meanBandwidth) stats 0
  have hf := foldl_add_int_cast (fun c => c.filteredBandwidth) stats 0
  rw [Int.cast_zero, zero_add] at hm hf
  simp only [_torflowaggregator_computeNewBandwidths, List.get?_map]
  cases h : stats.get? i with
  | none => rfl
  | some c =>
    simp only [Option.map_some']
    rw [hm, hf]

/-- Claim C2 (amended): during publish, every relay entry's newBandwidth is
the gint truncation toward zero of advertisedBandwidth times the maximum of
meanBandwidth/avgMean and filteredBandwidth/avgFiltered, where avgMean and
avgFiltered are the arithmetic means of meanBandwidth and filteredBandwidth
over all entries currently in the stats table. -/
theorem newBandwidth_eq_trunc_advertised_mul_max_ratio
    (stats : List TorFlowRelayStats) (i : Nat) :
    ((_torflowaggregator_computeNewBandwidths stats).get? i).map (fun c => c.newBandwidth)
      = (stats.get? i).map (fun c =>
          gintCast ((c.advertisedBandwidth : ℚ) *
            max ((c.meanBandwidth : ℚ)
                  / ((stats.map (fun d => ((d.meanBandwidth : Int) : ℚ))).sum / (stats.length : ℚ)))
                ((c.filteredBandwidth : ℚ)
                  / ((stats.map (fun d => ((d.filteredBandwidth : Int) : ℚ))).sum / (stats.length : ℚ))))) :=
  computeNewBandwidths_get? stats i

/-- Claim C2, counterexample: on `c2Stats` the average mean bandwidth is
3/2 and relay A has both ratios 2/3, so the claimed exact newBandwidth is
1 * (2/3) = 2/3; the code stores the truncated gint 0, which differs. -/
theorem newBandwidth_truncation_counterexample :
    ((_torflowaggregator_computeNewBandwidths c2Stats).get? 0).map (fun c => (c.newBandwidth : ℚ))
      = some 0
    ∧ ((1 : ℚ) * max ((1 : ℚ) / ((3 : ℚ) / 2)) ((1 : ℚ) / ((3 : ℚ) / 2))) = 2 / 3
    ∧ ((0 : ℚ) ≠ 2 / 3) := by
  refine ⟨?_, by norm_num, by norm_num⟩
  have h := computeNewBandwidths_get? c2Stats 0
  have h2 : ((_torflowaggregator_computeNewBandwidths c2Stats).get? 0).map
      (fun c => (c.newBandwidth : ℚ))
      = (((_torflowaggregator_computeNewBandwidths c2Stats).get? 0).map
          (fun c => c.newBandwidth)).map (fun n => ((n : Int) : ℚ)) := by
    cases hx : (_torflowaggregator_computeNewBandwidths c2Stats).get? 0 <;> simp
  rw [h2, h]
  have hval : (((c2Stats.get? 0).map (fun c =>
      gintCast ((c.advertisedBandwidth : ℚ) *
        max ((c.meanBandwidth : ℚ)
              / ((c2Stats.map (fun d => ((d.meanBandwidth : Int) : ℚ))).sum / (c2Stats.length : ℚ)))
            ((c.filteredBandwidth : ℚ)
              / ((c2Stats.map (fun d => ((d.filteredBandwidth : Int) : ℚ))).sum / (c2Stats.length : ℚ)))))))
      = some (gintCast (Rat.divInt 2 3)) := by
    have harg : ((((1 : Int) : ℚ)) *
        max (((1 : Int) : ℚ) / ((((1 : Int) : ℚ) + (((2 : Int) : ℚ) + 0)) / ((2 : Nat) : ℚ)))
            (((1 : Int) : ℚ) / ((((1 : Int) : ℚ) + (((2 : Int) : ℚ) + 0)) / ((2 : Nat) : ℚ))))
        = Rat.divInt 2 3 := by
      rw [Rat.divInt_eq_div]
      norm_num
    simp only [c2Stats, List.get?, Option.map_some', List.map_cons, List.map_nil,
      List.sum_cons, List.sum_nil, List.length_cons, List.length_nil]
    rw [harg]
  rw [hval]
  have : gintCast (Rat.divInt 2 3) = 0 := by decide
  rw [this]
  simp

/-- Claim C7, code-bug evaluation.  `unlink` and `symlink` return 0 on
success and -1 on failure, but the code guards the warnings with
`if(!unlink(...))` and `if(!symlink(...))`: when both calls succeed
(return 0) both warnings are emitted, and when both calls fail (return -1)
no warning is emitted.  Publish proceeds in either case and the version
still advances. -/
theorem publish_warns_on_symlink_success_not_failure :
    (_torflowaggregator_printToFile c7Agg 0 0 0).warnings
      = ["Unable to remove symlink to v3bw", "Unable to create symlink from v3bw.0 to v3bw"]
    ∧ (_torflowaggregator_printToFile c7Agg 0 (-1) (-1)).warnings = []
    ∧ (_torflowaggregator_printToFile c7Agg 0 (-1) (-1)).aggregator.version = 1
    ∧ (_torflowaggregator_printToFile c7Agg 0 (-1) (-1)).outFilename = "v3bw.0" := by
  refine ⟨by decide, by decide, by decide, by decide⟩

theorem c8Agg_relayStats_eval :
    c8Agg.relayStats
      = [ ⟨"nickA", "A", 100, 100, 0, 100, 100⟩,
          ⟨"nickB", "B", 200, 200, 0, 200, 200⟩,
          ⟨"nickC", "C", 300, 300, 0, 300, 300⟩ ] := by
  decide

/-- Evaluation of the publish bandwidth computation on the C8 scenario:
the average of the mean (and filtered) bandwidths is 200, each relay gets
advertised * (descriptor/200), and the list of new bandwidths is
[50, 200, 450]. -/
theorem c8_newBandwidths_eval :
    (_torflowaggregator_computeNewBandwidths c8Agg.relayStats).map (fun c => c.newBandwidth)
      = [50, 200, 450] := by
  rw [c8Agg_relayStats_eval]
  simp only [_torflowaggregator_computeNewBandwidths, List.foldl_cons, List.foldl_nil,
    List.map_cons, List.map_nil, List.length_cons, List.length_nil]
  have h1 : (((100 : Int) : ℚ)) *
      max (((100 : Int) : ℚ) / ((((0 : Int) + 100 + 200 + 300 : Int) : ℚ) / ((3 : Nat) : ℚ)))
          (((100 : Int) : ℚ) / ((((0 : Int) + 100 + 200 + 300 : Int) : ℚ) / ((3 : Nat) : ℚ)))
      = ((50 : Int) : ℚ) := by
    norm_num
  have h2 : (((200 : Int) : ℚ)) *
      max (((200 : Int) : ℚ) / ((((0 : Int) + 100 + 200 + 300 : Int) : ℚ) / ((3 : Nat) : ℚ)))
          (((200 : Int) : ℚ) / ((((0 : Int) + 100 + 200 + 300 : Int) : ℚ) / ((3 : Nat) : ℚ)))
      = ((200 : Int) : ℚ) := by
    norm_num
  have h3 : (((300 : Int) : ℚ)) *
      max (((300 : Int) : ℚ) / ((((0 : Int) + 100 + 200 + 300 : Int) : ℚ) / ((3 : Nat) : ℚ)))
          (((300 : Int) : ℚ) / ((((0 : Int) + 100 + 200 + 300 : Int) : ℚ) / ((3 : Nat) : ℚ)))
      = ((450 : Int) : ℚ) := by
    norm_num
  rw [h1, h2, h3, gintCast_intCast, gintCast_intCast, gintCast_intCast]

/-- Claim C8, counterexample: seeding with descriptor (= advertised)
bandwidths 100, 200, 300 and publishing yields new bandwidths summing to
700, not to the original total 600, refuting the claimed sum; the values
[50, 200, 450] are also not proportional to the relays ratios to the mean
(which are 1/2, 1, 3/2). -/
theorem reportInitial_publish_sum_counterexample :
    ((_torflowaggregator_computeNewBandwidths c8Agg.relayStats).map (fun c => c.newBandwidth)).sum
      = 700
    ∧ (c8Agg.relayStats.map (fun c => c.descriptorBandwidth)).sum = 600
    ∧ ((700 : Int) ≠ 600)
    ∧ ¬ ((50 : ℚ) / (1 / 2) = (200 : ℚ) / 1 ∧ (200 : ℚ) / 1 = (450 : ℚ) / (3 / 2)) := by
  refine ⟨?_, ?_, by decide, by norm_num⟩
  · rw [c8_newBandwidths_eval]
    decide
  · rw [c8Agg_relayStats_eval]
    decide

/-- Claim C8 (amended): on the seeding scenario each relay's newBandwidth
equals its advertised bandwidth times its own descriptor-to-population-mean
ratio (descriptor/200), giving [50, 200, 450]; these values sum to 700,
which exceeds the original total 600 (the redistribution does not preserve
the total when bandwidths are unequal). -/
theorem reportInitial_publish_bandwidths :
    ((_torflowaggregator_computeNewBandwidths c8Agg.relayStats).map (fun c => c.newBandwidth)
        = c8Agg.relayStats.map (fun c =>
            gintCast ((c.advertisedBandwidth : ℚ) * ((c.descriptorBandwidth : ℚ) / 200))))
    ∧ ((_torflowaggregator_computeNewBandwidths c8Agg.relayStats).map (fun c => c.newBandwidth)
        = [50, 200, 450])
    ∧ ((_torflowaggregator_computeNewBandwidths c8Agg.relayStats).map
        (fun c => c.newBandwidth)).sum = 700 := by
  refine ⟨?_, c8_newBandwidths_eval, by rw [c8_newBandwidths_eval]; decide⟩
  rw [c8_newBandwidths_eval, c8Agg_relayStats_eval]
  simp only [List.map_cons, List.map_nil]
  have h1 : (((100 : Int) : ℚ)) * (((100 : Int) : ℚ) / 200) = ((50 : Int) : ℚ) := by norm_num
  have h2 : (((200 : Int) : ℚ)) * (((200 : Int) : ℚ) / 200) = ((200 : Int) : ℚ) := by norm_num
  have h3 : (((300 : Int) : ℚ)) * (((300 : Int) : ℚ) / 200) = ((450 : Int) : ℚ) := by norm_num
  rw [h1, h2, h3, gintCast_intCast, gintCast_intCast, gintCast_intCast]
